import Mathlib

/-!
Verification of the auto_trader core: the signal parser
(`autotrader_server/src/text_to_order_params.py`) and the order derivation
engine (`autotrader_client/src/ameritrade_orders.py`).

The Python regular expressions are embedded as a small backtracking matcher
specialized to the concrete patterns of the source: each pattern component is
a function from the remaining input to the priority-ordered list of lengths it
may consume (greedy quantifiers list longer consumptions first, alternations
list the left branch first), and a sequence of components succeeds with the
first assignment in that priority order, exactly as the Python `re` backtracking
does.  Character classes are the ASCII classes of the source patterns
(`[A-Z]`, `[0-9]`, `C`, `P`); `\s` is modelled by the Unicode whitespace set
the Python `re` uses, and `\w` by the ASCII word characters (the claims under
study only involve ASCII input).

Real arithmetic of the derivation engine is modelled exactly over `ℚ`;
the Python `int(x)` is truncation toward zero, `round(x, 2)` is
round-half-to-even at two decimals, and `float(s)` is a partial function
`pyFloat : String → Option ℚ` over the Python decimal-literal grammar
(`inf`/`nan`/underscore literals lie outside the `ℚ` model and are treated as
unparseable).
-/

namespace AutoTrader

/-- Whitespace as matched by the Python `re` class `\s` on `str` patterns. -/
def isPySpace (c : Char) : Bool :=
  let n := c.toNat
  decide ((9 ≤ n ∧ n ≤ 13) ∨ n = 32 ∨ (28 ≤ n ∧ n ≤ 31) ∨ n = 133 ∨ n = 160 ∨
    n = 0x1680 ∨ (0x2000 ≤ n ∧ n ≤ 0x200a) ∨ n = 0x2028 ∨ n = 0x2029 ∨
    n = 0x202f ∨ n = 0x205f ∨ n = 0x3000)

/-- Word characters of the Python `re` class `\w`, restricted to ASCII. -/
def isPyWord (c : Char) : Bool :=
  c.isAlpha || c.isDigit || c == '_'

/-- A pattern component: given the remaining input it returns the list of
lengths it may consume, in backtracking priority order. -/
abbrev Comp := List Char → List Nat

/-- Try the options of a priority list in order, returning the first success. -/
def firstSome (l : List Nat) (f : Nat → Option α) : Option α :=
  match l with
  | [] => none
  | n :: ns =>
    match f n with
    | some a => some a
    | none => firstSome ns f

/-- Match a sequence of components against the input in backtracking priority
order; on success return the consumed chunk of each component. -/
def seqAll (cs : List Comp) (s : List Char) : Option (List (List Char)) :=
  match cs with
  | [] => some []
  | c :: rest =>
    firstSome (c s) (fun n => (seqAll rest (s.drop n)).map (fun r => s.take n :: r))

/-- Length of the maximal prefix of `s` satisfying `p`. -/
def countRun (p : Char → Bool) (s : List Char) : Nat :=
  (s.takeWhile p).length

/-- Greedy bounded repetition `p{lo,hi}`: longest consumption first. -/
def repGreedy (p : Char → Bool) (lo hi : Nat) : Comp := fun s =>
  let run := min (countRun p s) hi
  if run < lo then [] else (List.range (run + 1 - lo)).map (fun j => run - j)

/-- A single character satisfying `p`. -/
def charC (p : Char → Bool) : Comp := fun s =>
  match s with
  | c :: _ => if p c then [1] else []
  | [] => []

/-- A single literal character. -/
def litC (c : Char) : Comp := charC (fun x => x == c)

/-- A literal string, case-sensitive. -/
def litStr (t : String) : Comp := fun s =>
  if t.data.isPrefixOf s then [t.data.length] else []

/-- A literal string, case-insensitive (ASCII, as `re.IGNORECASE`). -/
def litStrCI (t : String) : Comp := fun s =>
  if (s.take t.data.length).map Char.toLower = t.data.map Char.toLower then
    [t.data.length]
  else []

/-- Sequencing of two components inside one regex group. -/
def seqC (a b : Comp) : Comp := fun s =>
  (a s).flatMap (fun n => (b (s.drop n)).map (fun m => n + m))

/-- Ordered alternation: the left branch has priority, as in `re`. -/
def altC (a b : Comp) : Comp := fun s => a s ++ b s

/-- Zero-width lookahead `(?!\S)`: end of input or a whitespace char next. -/
def endOrSpaceLA : Comp := fun s =>
  match s with
  | [] => [0]
  | c :: _ => if isPySpace c then [0] else []

/-- Zero-width lookahead for a single next character satisfying `p`. -/
def charLA (p : Char → Bool) : Comp := fun s =>
  match s with
  | c :: _ => if p c then [0] else []
  | [] => []

/-- Zero-width lookahead `(?!\w)`: end of input or a non-word char next. -/
def notWordLA : Comp := fun s =>
  match s with
  | [] => [0]
  | c :: _ => if isPyWord c then [] else [0]

/-- The character just before position `i`, used by lookbehind assertions. -/
def prevChar (s : List Char) (i : Nat) : Option Char :=
  if i = 0 then none else (s.drop (i - 1)).head?

/-- Lookbehind `(?<!\S)`: no non-whitespace char immediately before. -/
def sigLB : Option Char → Bool := fun o =>
  match o with
  | none => true
  | some c => isPySpace c

/-- Lookbehind `(?<!\w)`: no word char immediately before. -/
def wordLB : Option Char → Bool := fun o =>
  match o with
  | none => true
  | some c => !(isPyWord c)

/-- Absent lookbehind: always allowed. -/
def trueLB : Option Char → Bool := fun _ => true

/-- A regex match: its start position and the chunk each component consumed. -/
structure RMatch where
  start : Nat
  chunks : List (List Char)
deriving DecidableEq, Repr

/-- Position `re.Match.end()`: the position one past the consumed text. -/
def RMatch.stop (m : RMatch) : Nat :=
  m.start + (m.chunks.map List.length).sum

/-- Attempt a match of `comps` at position `i` of `s`, with lookbehind `lb`. -/
def matchAt (comps : List Comp) (lb : Option Char → Bool) (s : List Char)
    (i : Nat) : Option (List (List Char)) :=
  if lb (prevChar s i) then seqAll comps (s.drop i) else none

/-- Scan positions `i, i+1, ...` for the leftmost match, as `re` scanning. -/
def searchAux (comps : List Comp) (lb : Option Char → Bool) (s : List Char) :
    Nat → Nat → Option RMatch
  | _, 0 => none
  | i, fuel + 1 =>
    match matchAt comps lb s i with
    | some g => some ⟨i, g⟩
    | none => searchAux comps lb s (i + 1) fuel

/-- Semantics of `re.search`: the leftmost match of the pattern in `s`, if any. -/
def reSearch (comps : List Comp) (lb : Option Char → Bool) (s : List Char) :
    Option RMatch :=
  searchAux comps lb s 0 (s.length + 1)

/-- Collect successive non-overlapping matches starting at position `i`. -/
def findAux (comps : List Comp) (lb : Option Char → Bool) (s : List Char) :
    Nat → Nat → List RMatch
  | _, 0 => []
  | i, fuel + 1 =>
    match searchAux comps lb s i (s.length + 1 - i) with
    | none => []
    | some m => m :: findAux comps lb s m.stop fuel

/-- Semantics of `re.finditer`: all non-overlapping matches, scanning left to right and
resuming after each match end.  The signal pattern consumes at least three
characters per match, so fuel `s.length + 1` never truncates the scan. -/
def findIter (comps : List Comp) (lb : Option Char → Bool) (s : List Char) :
    List RMatch :=
  findAux comps lb s 0 (s.length + 1)

/-! The signal grammar of `text_to_order_params`, component by component,
from the source regex strings. -/

/-- Source regex `((?<!\S)BTO|(?<!\S)STC)` minus the lookbehind handled by `sigLB`. -/
def instrC : Comp := altC (litStr "BTO") (litStr "STC")

/-- Source regex `\s{1,2}` between fields. -/
def sep12 : Comp := repGreedy isPySpace 1 2

/-- Source regex `([A-Z]{1,5})`. -/
def tickerC : Comp := repGreedy Char.isUpper 1 5

/-- Source regex `([0-9]{1,5}\.[0-9]{1,2}|[0-9]{1,5})`. -/
def strikeC : Comp :=
  altC
    (seqC (repGreedy Char.isDigit 1 5)
      (seqC (litC '.') (repGreedy Char.isDigit 1 2)))
    (repGreedy Char.isDigit 1 5)

/-- Source regex `([CP]{1})`. -/
def ctypeC : Comp := charC (fun c => c == 'C' || c == 'P')

/-- Source regex `[0-9]{1,2}/[0-9]{1,2}`, shared by all expiration alternatives. -/
def dateMD : Comp :=
  seqC (repGreedy Char.isDigit 1 2)
    (seqC (litC '/') (repGreedy Char.isDigit 1 2))

/-- Source regex `([0-9]{1,2}/[0-9]{1,2}/[0-9]{4}|[0-9]{1,2}/[0-9]{1,2}/[0-9]{2}|[0-9]{1,2}/[0-9]{1,2})`. -/
def expirC : Comp :=
  altC (seqC dateMD (seqC (litC '/') (repGreedy Char.isDigit 4 4)))
    (altC (seqC dateMD (seqC (litC '/') (repGreedy Char.isDigit 2 2)))
      dateMD)

/-- Source regex `@\s{0,1}`. -/
def atC : Comp := seqC (litC '@') (repGreedy isPySpace 0 1)

/-- Source regex `([0-9]{0,3}\.[0-9]{1,2}((?!\S)|(?=[(])))`. -/
def priceC : Comp :=
  seqC (repGreedy Char.isDigit 0 3)
    (seqC (litC '.')
      (seqC (repGreedy Char.isDigit 1 2)
        (altC endOrSpaceLA (charLA (fun c => c == '(')))))

/-- The full signal pattern as its component sequence.  Chunk indices map to
the source capture groups: 0 ↦ group 1 (instruction), 2 ↦ group 2 (ticker),
4 ↦ group 3 (strike), 5 ↦ group 4 (contract type), 7 ↦ group 5 (expiration),
10 ↦ group 6 (contract price). -/
def signalComps : List Comp :=
  [instrC, sep12, tickerC, sep12, strikeC, ctypeC, sep12, expirC, sep12,
    atC, priceC]

/-! The flag sub-parsers `parse_sl`, `parse_risk`, `parse_reduce` of
`text_to_order_params.py`, each a `re.search` over the comments text. -/

/-- Source regex `(SL\s{0,1}@\s{0,1})([0-9]{0,3}\.[0-9]{1,2}((?!\S)|(?=[)])))`: chunk 0 is
group 1 (the `SL @` prelude), chunk 1 is group 2 (the price). -/
def slComps : List Comp :=
  [seqC (litStr "SL")
      (seqC (repGreedy isPySpace 0 1)
        (seqC (litC '@') (repGreedy isPySpace 0 1))),
    seqC (repGreedy Char.isDigit 0 3)
      (seqC (litC '.')
        (seqC (repGreedy Char.isDigit 1 2)
          (altC endOrSpaceLA (charLA (fun c => c == ')')))))]

/-- Function `parse_sl`: the stop-loss price string in the comments, if any. -/
def parse_sl (comments : String) : Option String :=
  (reSearch slComps trueLB comments.data).map
    (fun m => String.mk (m.chunks.getD 1 []))

/-- Source regex `(?<!\w)((risky)|(daytrade)|(small\sposition)|(light\sposition))(?!\w)`
with `re.IGNORECASE`, minus the lookbehind handled by `wordLB`. -/
def riskComps : List Comp :=
  [seqC
      (altC (litStrCI "risky")
        (altC (litStrCI "daytrade")
          (altC
            (seqC (litStrCI "small")
              (seqC (repGreedy isPySpace 1 1) (litStrCI "position")))
            (seqC (litStrCI "light")
              (seqC (repGreedy isPySpace 1 1) (litStrCI "position"))))))
      notWordLA]

/-- Function `parse_risk`: the literal string `"high risk"` when a risk term occurs. -/
def parse_risk (comments : String) : Option String :=
  (reSearch riskComps wordLB comments.data).map (fun _ => "high risk")

/-- Source regex `(?<!\w)(closing|trim)(\s)([0-9]{1,3}%)(?!\w)` with `re.IGNORECASE`,
minus the lookbehind handled by `wordLB`; chunk 2 is group 3. -/
def reduceComps : List Comp :=
  [altC (litStrCI "closing") (litStrCI "trim"),
    repGreedy isPySpace 1 1,
    seqC (repGreedy Char.isDigit 1 3) (seqC (litC '%') notWordLA)]

/-- Function `parse_reduce`: the percent token (digits plus `%`) in the comments. -/
def parse_reduce (comments : String) : Option String :=
  (reSearch reduceComps wordLB comments.data).map
    (fun m => String.mk (m.chunks.getD 2 []))

/-- Function `strip_markdown`: `string.replace("*", "").replace("_", "")`. -/
def strip_markdown (s : String) : String :=
  String.mk ((s.data.filter (fun c => c != '*')).filter (fun c => c != '_'))

/-- The `flags` sub-dictionary of the parser output. -/
structure OrderFlags where
  SL : Option String := none
  risk_level : Option String := none
  reduce : Option String := none
deriving DecidableEq, Repr

/-- The `order_params` dictionary of `text_to_order_params`. -/
structure OrderParams where
  instruction : Option String := none
  ticker : Option String := none
  strike_price : Option String := none
  contract_type : Option String := none
  expiration : Option String := none
  contract_price : Option String := none
  comments : Option String := none
  flags : OrderFlags := {}
deriving DecidableEq, Repr

/-- The all-`None` template `order_params` is compared against on return. -/
def emptyOrderParams : OrderParams := {}

/-- Populate `order_params` from the single match, as lines 71-87 of
`text_to_order_params.py`: the six groups, then the residual comments, then
the direction-specific flags (only when the comments are non-empty). -/
def populate (clean : List Char) (m : RMatch) : OrderParams :=
  let g := fun i => String.mk (m.chunks.getD i [])
  let commentsChars := clean.drop m.stop
  let base : OrderParams :=
    { instruction := some (g 0), ticker := some (g 2),
      strike_price := some (g 4), contract_type := some (g 5),
      expiration := some (g 7), contract_price := some (g 10) }
  if commentsChars = [] then base
  else
    let cs := String.mk commentsChars
    { base with
      comments := some cs,
      flags :=
        if g 0 = "BTO" then
          { SL := parse_sl cs, risk_level := parse_risk cs, reduce := none }
        else if g 0 = "STC" then
          { SL := none, risk_level := none, reduce := parse_reduce cs }
        else {} }

/-- Function `text_to_order_params`: strip markdown, find all matches of the signal
pattern, populate the parameters when there is exactly one match, and return
`None` when the result equals the all-`None` template. -/
def text_to_order_params (s : String) : Option OrderParams :=
  let clean := strip_markdown s
  let ms := findIter signalComps sigLB clean.data
  let p :=
    match ms with
    | [m] => populate clean.data m
    | _ => emptyOrderParams
  if p = emptyOrderParams then none else some p

/-! The order derivation engine of `ameritrade_orders.py`, over `ℚ`. -/

/-- Python `int(x)` on a real value: truncation toward zero. -/
def pyInt (q : ℚ) : ℤ :=
  if 0 ≤ q then ⌊q⌋ else ⌈q⌉

/-- Round to the nearest integer, ties to even, as the Python `round`. -/
def roundHalfEven (q : ℚ) : ℤ :=
  let f := ⌊q⌋
  let r := q - f
  if r < 1 / 2 then f
  else if 1 / 2 < r then f + 1
  else if f % 2 = 0 then f else f + 1

/-- Python `round(x, 2)`: round to two decimal places, ties to even. -/
def round2 (q : ℚ) : ℚ :=
  (roundHalfEven (q * 100) : ℚ) / 100

/-- Value of a big-endian list of decimal digit characters. -/
def natOfDigits (l : List Char) : Nat :=
  l.foldl (fun a c => 10 * a + (c.toNat - 48)) 0

/-- Python `float(s)` on the decimal-literal grammar: optional surrounding
whitespace, optional sign, integer and/or fractional digits around an
optional point, optional decimal exponent.  `inf`, `nan`, underscore
separators and hex floats are outside the `ℚ` model and yield `none`, as
does every string the Python `float` raises `ValueError` on. -/
def pyFloat (s : String) : Option ℚ :=
  let l1 := ((s.data.dropWhile isPySpace).reverse.dropWhile isPySpace).reverse
  let sgnAndRest : ℚ × List Char :=
    match l1 with
    | '+' :: t => (1, t)
    | '-' :: t => (-1, t)
    | t => (1, t)
  let sgn := sgnAndRest.1
  let l2 := sgnAndRest.2
  let ip := l2.takeWhile Char.isDigit
  let r1 := l2.dropWhile Char.isDigit
  let fpAndRest : List Char × List Char :=
    match r1 with
    | '.' :: t => (t.takeWhile Char.isDigit, t.dropWhile Char.isDigit)
    | t => ([], t)
  let fp := fpAndRest.1
  let r2 := fpAndRest.2
  if ip = [] ∧ fp = [] then none
  else
    let mant : ℚ := (natOfDigits ip : ℚ) + (natOfDigits fp : ℚ) / (10 ^ fp.length : ℚ)
    match r2 with
    | [] => some (sgn * mant)
    | e :: t =>
      if e = 'e' ∨ e = 'E' then
        let esgnAndRest : Bool × List Char :=
          match t with
          | '+' :: u => (false, u)
          | '-' :: u => (true, u)
          | u => (false, u)
        let eneg := esgnAndRest.1
        let t2 := esgnAndRest.2
        let ed := t2.takeWhile Char.isDigit
        let r3 := t2.dropWhile Char.isDigit
        if ed = [] ∨ r3 ≠ [] then none
        else
          some (sgn * mant *
            (if eneg then 1 / (10 ^ natOfDigits ed : ℚ) else (10 ^ natOfDigits ed : ℚ)))
      else none

/-- Function `calc_buy_order_quantity`: `int(ord_val / (price * 100 * (1 + limit_percent)))`. -/
def calc_buy_order_quantity (price ord_val limit_percent : ℚ) : ℤ :=
  let lot_size : ℚ := 100
  let lot_value := price * lot_size * (1 + limit_percent)
  let quantity := ord_val / lot_value
  pyInt quantity

/-- Function `calc_buy_limit_price`: `round(contract_price * (1 + buy_limit_percent), 2)`. -/
def calc_buy_limit_price (contract_price buy_limit_percent : ℚ) : ℚ :=
  round2 (contract_price * (1 + buy_limit_percent))

/-- Function `calc_sl_percentage`: `(contract_price - sl_price) / contract_price`. -/
def calc_sl_percentage (contract_price sl_price : ℚ) : ℚ :=
  (contract_price - sl_price) / contract_price

/-- Function `calc_sl_price`: `round(contract_price * (1 - sl_percent), 2)`. -/
def calc_sl_price (contract_price sl_percent : ℚ) : ℚ :=
  round2 (contract_price * (1 - sl_percent))

/-- Function `calc_position_reduction`: `sell = math.ceil(pos_qty * percent)`,
`keep = pos_qty - sell`, exactly as lines 291-296 of the source (note: the
source does not divide `percent` by 100). -/
def calc_position_reduction (pos_qty percent : ℚ) : ℤ × ℚ :=
  let sell_qty := ⌈pos_qty * percent⌉
  (sell_qty, pos_qty - sell_qty)

/-- An error raised by the Python runtime during order derivation; the
`float()` call on an unparseable string raises `ValueError`. -/
inductive PyErr
  | valueError
deriving DecidableEq, Repr

/-- The user settings dictionary `usr_set` built by `initialize_order`. -/
structure UserSettings where
  max_ord_val : ℚ
  high_risk_ord_val : ℚ
  buy_limit_percent : ℚ
  SL_percent : ℚ
deriving DecidableEq, Repr

/-- The slice of `ord_params` that `process_bto_order` consumes, with the
contract price already numeric (the caller-side transport converts it before
the engine runs; the `SL` flag stays a string because the source converts it
itself with `float()`). -/
structure BtoIntent where
  contract_price : ℚ
  sl_flag : Option String
  risk_flag : Option String
deriving DecidableEq, Repr

/-- The numeric order plan `process_bto_order` assembles before placing. -/
structure BtoPlan where
  quantity : ℤ
  buy_limit_price : ℚ
  stop_loss_price : ℚ
  sl_percent_used : ℚ
deriving DecidableEq, Repr

/-- Lines 113-116 of `process_bto_order`: the high-risk order value when the
risk flag reads `"high risk"`, the maximum order value otherwise. -/
def bto_order_value (ord : BtoIntent) (usr : UserSettings) : ℚ :=
  if ord.risk_flag = some "high risk" then usr.high_risk_ord_val
  else usr.max_ord_val

/-- Lines 124-130 of `process_bto_order`: keep the user stop-loss percent
unless the message supplies a stop loss whose percentage drop is strictly
smaller; `float()` failure on the flag raises. -/
def select_sl_percent (cp : ℚ) (sl_flag : Option String) (usr_sl : ℚ) :
    Except PyErr ℚ :=
  match sl_flag with
  | none => .ok usr_sl
  | some s =>
    match pyFloat s with
    | none => .error .valueError
    | some rec_sl =>
      let rec_pct := calc_sl_percentage cp rec_sl
      .ok (if rec_pct < usr_sl then rec_pct else usr_sl)

/-- The order-planning computation of `process_bto_order`: pick the order
value by risk flag, derive the quantity, and when it is at least 1 derive
the stop-loss percent and prices; a quantity below 1 yields no order
(`.ok none`), the diagnostic path of lines 143-146. -/
def process_bto_plan (ord : BtoIntent) (usr : UserSettings) :
    Except PyErr (Option BtoPlan) :=
  let order_value := bto_order_value ord usr
  let buy_qty := calc_buy_order_quantity ord.contract_price order_value usr.buy_limit_percent
  if 1 ≤ buy_qty then
    match select_sl_percent ord.contract_price ord.sl_flag usr.SL_percent with
    | .error e => .error e
    | .ok slp =>
      .ok (some
        { quantity := buy_qty,
          buy_limit_price := calc_buy_limit_price ord.contract_price usr.buy_limit_percent,
          stop_loss_price := calc_sl_price ord.contract_price slp,
          sl_percent_used := slp })
  else .ok none

/-- The integer a percent token such as `"50%"` denotes: the value of its
leading digits. -/
def reduceValue (s : String) : Nat :=
  natOfDigits (s.data.takeWhile Char.isDigit)

/-! Structural facts about `populate` and `text_to_order_params`. -/

/-- Lemma: a populated parameter record always carries its instruction. -/
theorem populate_instruction (clean : List Char) (m : RMatch) :
    (populate clean m).instruction = some (String.mk (m.chunks.getD 0 [])) := by
  simp only [populate]
  split
  · rfl
  · rfl

/-- Lemma: a populated parameter record never equals the all-`None` record. -/
theorem populate_ne_empty (clean : List Char) (m : RMatch) :
    populate clean m ≠ emptyOrderParams := by
  intro h
  have h2 := populate_instruction clean m
  rw [h] at h2
  simp [emptyOrderParams] at h2

/-- Lemma: the parser output is the populated record of the unique match when
the scan finds exactly one, and `none` otherwise. -/
theorem ttop_spec (s : String) :
    text_to_order_params s =
      match findIter signalComps sigLB (strip_markdown s).data with
      | [m] => some (populate (strip_markdown s).data m)
      | _ => none := by
  simp only [text_to_order_params]
  rcases hms : findIter signalComps sigLB (strip_markdown s).data with _ | ⟨m, _ | ⟨m2, t⟩⟩
  · simp
  · simp [populate_ne_empty]
  · simp

/-! Inversion lemmas for the matcher combinators, used to characterize what a
successful `parse_reduce` match must look like. -/

/-- Lemma: a successful priority search comes from one of its options. -/
theorem firstSome_eq_some {α : Type} {l : List Nat} {f : Nat → Option α} {a : α}
    (h : firstSome l f = some a) : ∃ n ∈ l, f n = some a := by
  induction l with
  | nil => simp [firstSome] at h
  | cons n ns ih =>
    simp only [firstSome] at h
    cases hf : f n with
    | some b =>
      rw [hf] at h
      exact ⟨n, List.mem_cons_self n ns, by rw [hf]; exact congrArg some (Option.some.inj h)⟩
    | none =>
      rw [hf] at h
      obtain ⟨n2, hmem, hfn⟩ := ih h
      exact ⟨n2, List.mem_cons_of_mem _ hmem, hfn⟩

/-- Lemma: a successful component sequence splits into a head consumption and
a tail sequence. -/
theorem seqAll_cons_eq_some {c : Comp} {cs : List Comp} {s : List Char}
    {r : List (List Char)} (h : seqAll (c :: cs) s = some r) :
    ∃ n r2, n ∈ c s ∧ seqAll cs (s.drop n) = some r2 ∧ r = s.take n :: r2 := by
  simp only [seqAll] at h
  obtain ⟨n, hn, hf⟩ := firstSome_eq_some h
  obtain ⟨r2, h2, hr⟩ := Option.map_eq_some'.mp hf
  exact ⟨n, r2, hn, h2, hr.symm⟩

/-- Lemma: the empty component sequence consumes nothing. -/
theorem seqAll_nil_eq_some {s : List Char} {r : List (List Char)}
    (h : seqAll [] s = some r) : r = [] := by
  simp only [seqAll, Option.some.injEq] at h
  exact h.symm

/-- Lemma: a consumption of a sequenced pair splits into its parts. -/
theorem mem_seqC_inv {a b : Comp} {s : List Char} {n : ℕ}
    (h : n ∈ seqC a b s) :
    ∃ n1 n2, n1 ∈ a s ∧ n2 ∈ b (s.drop n1) ∧ n = n1 + n2 := by
  simp only [seqC, List.mem_flatMap, List.mem_map] at h
  obtain ⟨n1, h1, n2, h2, hn⟩ := h
  exact ⟨n1, n2, h1, h2, hn.symm⟩

/-- Lemma: a consumption of an alternation comes from one branch. -/
theorem mem_altC_inv {a b : Comp} {s : List Char} {n : ℕ}
    (h : n ∈ altC a b s) : n ∈ a s ∨ n ∈ b s :=
  List.mem_append.mp h

/-- Lemma: a consumption of a greedy repetition is within its bounds and
within the run of matching characters. -/
theorem mem_repGreedy_inv {p : Char → Bool} {lo hi : ℕ} {s : List Char} {n : ℕ}
    (h : n ∈ repGreedy p lo hi s) :
    lo ≤ n ∧ n ≤ hi ∧ n ≤ countRun p s := by
  simp only [repGreedy] at h
  by_cases hr : min (countRun p s) hi < lo
  · rw [if_pos hr] at h
    simp at h
  · rw [if_neg hr] at h
    rw [Nat.not_lt] at hr
    simp only [List.mem_map, List.mem_range] at h
    obtain ⟨j, hj, hn⟩ := h
    have h1 := Nat.min_le_left (countRun p s) hi
    have h2 := Nat.min_le_right (countRun p s) hi
    omega

/-- Lemma: a prefix no longer than the matching run satisfies the predicate
throughout. -/
theorem all_of_take_le_takeWhile {p : Char → Bool} :
    ∀ {s : List Char} {n : ℕ}, n ≤ (s.takeWhile p).length →
      ∀ c ∈ s.take n, p c = true := by
  intro s
  induction s with
  | nil =>
    intro n h c hc
    simp at hc
  | cons a t ih =>
    intro n h c hc
    cases n with
    | zero => simp at hc
    | succ k =>
      by_cases hp : p a = true
      · rw [List.takeWhile_cons_of_pos hp, List.length_cons] at h
        rw [List.take_succ_cons] at hc
        rcases List.mem_cons.mp hc with rfl | hc2
        · exact hp
        · exact ih (Nat.le_of_succ_le_succ h) c hc2
      · rw [List.takeWhile_cons_of_neg (by simpa using hp)] at h
        simp only [List.length_nil] at h
        omega

/-- Lemma: a literal character component consumes exactly that character. -/
theorem mem_litC_inv {ch : Char} {s : List Char} {n : ℕ} (h : n ∈ litC ch s) :
    n = 1 ∧ s.take 1 = [ch] := by
  cases s with
  | nil => simp [litC, charC] at h
  | cons a t =>
    simp only [litC, charC] at h
    by_cases hb : (a == ch) = true
    · rw [if_pos hb] at h
      simp only [List.mem_singleton] at h
      have ha : a = ch := by simpa using hb
      exact ⟨h, by simp [ha]⟩
    · rw [if_neg hb] at h
      simp at h

/-- Lemma: a word-boundary lookahead that admits an option admits exactly the
zero-width option. -/
theorem notWordLA_eq_of_mem {s : List Char} {n : ℕ} (h : n ∈ notWordLA s) :
    notWordLA s = [0] := by
  cases s with
  | nil => rfl
  | cons a t =>
    simp only [notWordLA] at h ⊢
    by_cases hw : isPyWord a = true
    · rw [if_pos hw] at h
      simp at h
    · rw [if_neg hw]

/-- Lemma: a case-insensitive literal component consumes text that lowercases
to the literal. -/
theorem mem_litStrCI_inv {t : String} {s : List Char} {n : ℕ}
    (h : n ∈ litStrCI t s) :
    n = t.data.length ∧
      (s.take t.data.length).map Char.toLower = t.data.map Char.toLower := by
  simp only [litStrCI] at h
  by_cases hc : (s.take t.data.length).map Char.toLower = t.data.map Char.toLower
  · rw [if_pos hc] at h
    simp only [List.mem_singleton] at h
    exact ⟨h, hc⟩
  · rw [if_neg hc] at h
    simp at h

/-- Lemma: a successful position match passes its lookbehind and its
component sequence. -/
theorem matchAt_eq_some_inv {comps : List Comp} {lb : Option Char → Bool}
    {s : List Char} {i : ℕ} {g : List (List Char)}
    (h : matchAt comps lb s i = some g) :
    lb (prevChar s i) = true ∧ seqAll comps (s.drop i) = some g := by
  simp only [matchAt] at h
  by_cases hl : lb (prevChar s i) = true
  · rw [if_pos hl] at h
    exact ⟨hl, h⟩
  · rw [if_neg hl] at h
    cases h

/-- Lemma: a successful scan yields a match that matches at its own start. -/
theorem searchAux_eq_some_inv {comps : List Comp} {lb : Option Char → Bool}
    {s : List Char} :
    ∀ {fuel i : ℕ} {m : RMatch}, searchAux comps lb s i fuel = some m →
      matchAt comps lb s m.start = some m.chunks := by
  intro fuel
  induction fuel with
  | zero =>
    intro i m h
    simp [searchAux] at h
  | succ k ih =>
    intro i m h
    simp only [searchAux] at h
    cases hm : matchAt comps lb s i with
    | some g =>
      rw [hm] at h
      have h2 : (⟨i, g⟩ : RMatch) = m := Option.some.inj h
      rw [← h2]
      exact hm
    | none =>
      rw [hm] at h
      exact ih h

/-- Lemma: the digit run of a digit block followed by a non-digit is the
block itself. -/
theorem takeWhile_append_of_all {p : Char → Bool} {ds : List Char} {x : Char}
    {t : List Char} (hall : ∀ d ∈ ds, p d = true) (hx : p x = false) :
    (ds ++ x :: t).takeWhile p = ds := by
  induction ds with
  | nil =>
    simp only [List.nil_append]
    exact List.takeWhile_cons_of_neg (by simp [hx])
  | cons a d ih =>
    have ha : p a = true := hall a (List.mem_cons_self _ _)
    simp only [List.cons_append, List.takeWhile_cons_of_pos ha]
    rw [ih (fun d2 hd2 => hall d2 (List.mem_cons_of_mem _ hd2))]

/-- Lemma: accumulator bound for the value of a digit list. -/
theorem natOfDigits_aux_lt :
    ∀ (ds : List Char), (∀ d ∈ ds, d.isDigit = true) → ∀ a : ℕ,
      List.foldl (fun a c => 10 * a + (c.toNat - 48)) a ds <
        (a + 1) * 10 ^ ds.length := by
  intro ds
  induction ds with
  | nil =>
    intro _ a
    simp
  | cons d t ih =>
    intro hall a
    have hd : d.toNat ≤ 57 := by
      have h1 := hall d (List.mem_cons_self _ _)
      simp [Char.isDigit] at h1
      exact h1.2
    simp only [List.foldl_cons, List.length_cons]
    calc List.foldl (fun a c => 10 * a + (c.toNat - 48))
          (10 * a + (d.toNat - 48)) t
        < (10 * a + (d.toNat - 48) + 1) * 10 ^ t.length :=
          ih (fun x hx => hall x (List.mem_cons_of_mem _ hx)) _
      _ ≤ ((a + 1) * 10) * 10 ^ t.length := by
          have hstep : 10 * a + (d.toNat - 48) + 1 ≤ (a + 1) * 10 := by omega
          exact Nat.mul_le_mul_right _ hstep
      _ = (a + 1) * 10 ^ (t.length + 1) := by ring

/-- Lemma: at most three decimal digits denote at most 999. -/
theorem natOfDigits_le_of_digits {ds : List Char}
    (h : ∀ d ∈ ds, d.isDigit = true) (h3 : ds.length ≤ 3) :
    natOfDigits ds ≤ 999 := by
  have haux := natOfDigits_aux_lt ds h 0
  have hp : 10 ^ ds.length ≤ 10 ^ 3 :=
    Nat.pow_le_pow_right (by norm_num) h3
  simp only [natOfDigits]
  omega

/-! Theorems for the parser claims. -/

/-- C1: the parser returns a populated record exactly when the cleaned string
contains exactly one non-overlapping match of the signal grammar (the match
list of the `re.finditer` scan is a singleton); any other match count gives
`None`; in particular the message holding the signal written twice in a row,
each price followed by whitespace, parses to `None`. -/
theorem c1_exactly_one_signal :
    (∀ s : String, (text_to_order_params s).isSome ↔
      (findIter signalComps sigLB (strip_markdown s).data).length = 1) ∧
    (∀ s : String,
      (findIter signalComps sigLB (strip_markdown s).data).length ≠ 1 →
      text_to_order_params s = none) ∧
    text_to_order_params "BTO INTC 50C 12/31 @.45 BTO INTC 50C 12/31 @.45 " = none := by
  refine ⟨?_, ?_, by decide⟩
  · intro s
    rw [ttop_spec s]
    rcases hms : findIter signalComps sigLB (strip_markdown s).data with _ | ⟨m, _ | ⟨m2, t⟩⟩ <;>
      simp
  · intro s h
    rw [ttop_spec s]
    rcases hms : findIter signalComps sigLB (strip_markdown s).data with _ | ⟨m, _ | ⟨m2, t⟩⟩
    · rfl
    · rw [hms] at h
      simp at h
    · rfl

/-- Witness for C1 on a message with no grammar match. -/
theorem c1_exactly_one_signal_witness :
    text_to_order_params "no signal here" = none :=
  c1_exactly_one_signal.2.1 "no signal here" (by decide)

/-- Lemma: two successive character filters are idempotent as a pair. -/
theorem filter_pair_idem (p q : Char → Bool) (l : List Char) :
    ((((l.filter p).filter q).filter p).filter q) = (l.filter p).filter q := by
  simp only [List.filter_filter]
  apply List.filter_congr
  intro a _
  cases hq : q a <;> cases hp : p a <;> rfl

/-- Lemma: markdown stripping is idempotent. -/
theorem strip_markdown_idem (s : String) :
    strip_markdown (strip_markdown s) = strip_markdown s :=
  congrArg String.mk (filter_pair_idem _ _ s.data)

/-- C5: markdown stripping removes every `*` and `_`, is idempotent, and the
parser is invariant under it; concretely the starred and the bare example
message parse identically. -/
theorem c5_markdown_invariance :
    (∀ s : String, ∀ c ∈ (strip_markdown s).data, c ≠ '*' ∧ c ≠ '_') ∧
    (∀ s : String, strip_markdown (strip_markdown s) = strip_markdown s) ∧
    (∀ s : String, text_to_order_params (strip_markdown s) = text_to_order_params s) ∧
    text_to_order_params "BTO INTC 50C **12/31** __@0.45__" =
      text_to_order_params "BTO INTC 50C 12/31 @0.45" := by
  refine ⟨?_, strip_markdown_idem, ?_, by decide⟩
  · intro s c hc
    have hc2 : c ∈ (s.data.filter (fun c => c != '*')).filter (fun c => c != '_') := hc
    simp only [List.mem_filter, bne_iff_ne] at hc2
    exact ⟨hc2.1.2, hc2.2⟩
  · intro s
    simp only [text_to_order_params, strip_markdown_idem]

/-- Witness for C5: the stripped example contains no markdown character. -/
theorem c5_markdown_invariance_witness : 'B' ≠ '*' ∧ 'B' ≠ '_' :=
  c5_markdown_invariance.1 "**BTO**" 'B' (by decide)

/-- C6: in every parsed intent the stop-loss and risk flags can be populated
only on a BTO instruction and the reduce flag only on an STC instruction. -/
theorem c6_flag_direction_exclusivity (s : String) (p : OrderParams)
    (h : text_to_order_params s = some p) :
    (p.instruction = some "BTO" → p.flags.reduce = none) ∧
    (p.instruction = some "STC" → p.flags.SL = none ∧ p.flags.risk_level = none) := by
  rw [ttop_spec s] at h
  rcases hms : findIter signalComps sigLB (strip_markdown s).data with _ | ⟨m, _ | ⟨m2, t⟩⟩
  · rw [hms] at h
    cases h
  · rw [hms] at h
    have hp : p = populate (strip_markdown s).data m := (Option.some.inj h).symm
    subst hp
    simp only [populate]
    by_cases hc : ((strip_markdown s).data.drop m.stop) = []
    · rw [if_pos hc]
      exact ⟨fun _ => rfl, fun _ => ⟨rfl, rfl⟩⟩
    · rw [if_neg hc]
      constructor
      · intro hb
        have hb2 : some (String.mk (m.chunks.getD 0 [])) = some "BTO" := hb
        have hg : String.mk (m.chunks.getD 0 []) = "BTO" := Option.some.inj hb2
        show (if String.mk (m.chunks.getD 0 []) = "BTO" then
            ({ SL := parse_sl (String.mk ((strip_markdown s).data.drop m.stop)),
               risk_level := parse_risk (String.mk ((strip_markdown s).data.drop m.stop)),
               reduce := none } : OrderFlags)
          else if String.mk (m.chunks.getD 0 []) = "STC" then
            { SL := none, risk_level := none,
              reduce := parse_reduce (String.mk ((strip_markdown s).data.drop m.stop)) }
          else {}).reduce = none
        rw [if_pos hg]
      · intro hb
        have hb2 : some (String.mk (m.chunks.getD 0 [])) = some "STC" := hb
        have hg : String.mk (m.chunks.getD 0 []) = "STC" := Option.some.inj hb2
        have hne : ¬ String.mk (m.chunks.getD 0 []) = "BTO" := by
          rw [hg]
          decide
        show (if String.mk (m.chunks.getD 0 []) = "BTO" then
            ({ SL := parse_sl (String.mk ((strip_markdown s).data.drop m.stop)),
               risk_level := parse_risk (String.mk ((strip_markdown s).data.drop m.stop)),
               reduce := none } : OrderFlags)
          else if String.mk (m.chunks.getD 0 []) = "STC" then
            { SL := none, risk_level := none,
              reduce := parse_reduce (String.mk ((strip_markdown s).data.drop m.stop)) }
          else {}).SL = none ∧
          (if String.mk (m.chunks.getD 0 []) = "BTO" then
            ({ SL := parse_sl (String.mk ((strip_markdown s).data.drop m.stop)),
               risk_level := parse_risk (String.mk ((strip_markdown s).data.drop m.stop)),
               reduce := none } : OrderFlags)
          else if String.mk (m.chunks.getD 0 []) = "STC" then
            { SL := none, risk_level := none,
              reduce := parse_reduce (String.mk ((strip_markdown s).data.drop m.stop)) }
          else {}).risk_level = none
        rw [if_neg hne, if_pos hg]
        exact ⟨rfl, rfl⟩
  · rw [hms] at h
    cases h

/-- Witness for C6 on a BTO message whose comments carry a trim phrase. -/
theorem c6_flag_direction_exclusivity_witness :
    ({ instruction := some "BTO", ticker := some "INTC", strike_price := some "50",
       contract_type := some "C", expiration := some "12/31",
       contract_price := some ".45", comments := some " trim 50%",
       flags := {} } : OrderParams).flags.reduce = none :=
  (c6_flag_direction_exclusivity "BTO INTC 50C 12/31 @.45 trim 50%"
    { instruction := some "BTO", ticker := some "INTC", strike_price := some "50",
      contract_type := some "C", expiration := some "12/31",
      contract_price := some ".45", comments := some " trim 50%", flags := {} }
    (by decide)).1 (by decide)

/-! Theorems for the derivation-engine claims. -/

/-- Helper: the Python float value of the literal string `".35"`. -/
theorem pyFloat_dot35 : pyFloat ".35" = some (7/20) := by
  have h : pyFloat ".35" =
      some ((1 : ℚ) *
        ((natOfDigits [] : ℚ) + (natOfDigits ['3', '5'] : ℚ) / (10 : ℚ) ^ (2 : ℕ))) := rfl
  rw [h, show natOfDigits [] = 0 from rfl, show natOfDigits ['3', '5'] = 35 from rfl]
  norm_num

/-- Helper: the Python float value of the literal string `"0.00"`. -/
theorem pyFloat_zero00 : pyFloat "0.00" = some 0 := by
  have h : pyFloat "0.00" =
      some ((1 : ℚ) *
        ((natOfDigits ['0'] : ℚ) + (natOfDigits ['0', '0'] : ℚ) / (10 : ℚ) ^ (2 : ℕ))) := rfl
  rw [h, show natOfDigits ['0'] = 0 from rfl, show natOfDigits ['0', '0'] = 0 from rfl]
  norm_num

/-- C2: for an OPEN intent with a message stop loss, the engine computes the
message stop-loss percent `(contract_price - stop_loss) / contract_price`,
takes the smaller of it and the user default percent, and prices the stop at
`round(contract_price * (1 - chosen_percent), 2)`; concretely with contract
price `0.45`, message stop loss `.35` and default percent `0.30` the message
percent `2/9` is chosen and the stop-loss price is `0.35`. -/
theorem c2_stop_loss_selection :
    (∀ (cp usr_sl : ℚ) (s : String) (v : ℚ), pyFloat s = some v →
      select_sl_percent cp (some s) usr_sl = .ok (min ((cp - v) / cp) usr_sl)) ∧
    (∀ cp slp : ℚ, calc_sl_price cp slp = round2 (cp * (1 - slp))) ∧
    select_sl_percent (9/20) (some ".35") (3/10) = .ok (2/9) ∧
    calc_sl_price (9/20) (2/9) = 7/20 := by
  refine ⟨?_, fun cp slp => rfl, ?_, ?_⟩
  · intro cp usr_sl s v hv
    simp only [select_sl_percent, hv, calc_sl_percentage]
    rcases lt_or_ge ((cp - v) / cp) usr_sl with h | h
    · rw [if_pos h, min_eq_left h.le]
    · rw [if_neg (not_lt.mpr h), min_eq_right h]
  · simp only [select_sl_percent, pyFloat_dot35, calc_sl_percentage]
    norm_num
  · simp only [calc_sl_price, round2, roundHalfEven]
    norm_num

/-- Witness for C2 at contract price `0.45`, message stop loss `.35`,
default percent `0.30`. -/
theorem c2_stop_loss_selection_witness :
    select_sl_percent (9/20) (some ".35") (3/10) =
      .ok (min ((9/20 - 7/20) / (9/20 : ℚ)) (3/10)) :=
  c2_stop_loss_selection.1 (9/20) (3/10) ".35" (7/20) pyFloat_dot35

/-- C3: evaluation of the code at the spec example `derive_reduction(3, 50)`.
The source computes `sell = ceil(pos_qty * percent)` with no division by
100, so it yields `(150, -147)` where the spec requires `(2, 1)`. -/
theorem c3_calc_position_reduction_at_3_50 :
    calc_position_reduction 3 50 = (150, -147) := by
  simp only [calc_position_reduction, Prod.mk.injEq]
  constructor
  · norm_num
  · norm_num

/-- C4: the OPEN quantity is `floor(order_value / (contract_price * 100 *
(1 + buy_limit_percent)))` with lot size 100, never negative, where the
order value is the high-risk value exactly when the risk flag is set;
quantity below 1 is a valid no-order outcome; concretely the quantity for
order value 500, price 0.45 and limit percent 0.05 is 10. -/
theorem c4_open_quantity :
    (∀ cp ov blp : ℚ, 0 < cp → 0 < blp → 0 ≤ ov →
      calc_buy_order_quantity cp ov blp = ⌊ov / (cp * 100 * (1 + blp))⌋ ∧
      0 ≤ calc_buy_order_quantity cp ov blp) ∧
    (∀ (ord : BtoIntent) (usr : UserSettings), ord.risk_flag = some "high risk" →
      bto_order_value ord usr = usr.high_risk_ord_val) ∧
    (∀ (ord : BtoIntent) (usr : UserSettings), ord.risk_flag ≠ some "high risk" →
      bto_order_value ord usr = usr.max_ord_val) ∧
    (∀ (ord : BtoIntent) (usr : UserSettings),
      calc_buy_order_quantity ord.contract_price (bto_order_value ord usr)
        usr.buy_limit_percent < 1 →
      process_bto_plan ord usr = .ok none) ∧
    calc_buy_order_quantity (9/20) 500 (1/20) = 10 := by
  refine ⟨?_, ?_, ?_, ?_, by norm_num [calc_buy_order_quantity, pyInt]⟩
  · intro cp ov blp h1 h2 h3
    have hb : (0:ℚ) < 1 + blp := by linarith
    have hd : (0:ℚ) < cp * 100 * (1 + blp) :=
      mul_pos (mul_pos h1 (by norm_num)) hb
    have hq : (0:ℚ) ≤ ov / (cp * 100 * (1 + blp)) := div_nonneg h3 hd.le
    constructor
    · simp only [calc_buy_order_quantity, pyInt]
      rw [if_pos hq]
    · simp only [calc_buy_order_quantity, pyInt]
      rw [if_pos hq]
      exact Int.floor_nonneg.mpr hq
  · intro ord usr h
    simp [bto_order_value, h]
  · intro ord usr h
    simp [bto_order_value, h]
  · intro ord usr h
    simp only [process_bto_plan]
    rw [if_neg (not_le.mpr h)]

/-- Witness for C4 at contract price `0.45`, order value `500`, buy limit
percent `0.05`. -/
theorem c4_open_quantity_witness :
    calc_buy_order_quantity (9/20) 500 (1/20) =
      ⌊(500 : ℚ) / ((9/20) * 100 * (1 + 1/20))⌋ ∧
    0 ≤ calc_buy_order_quantity (9/20) 500 (1/20) :=
  c4_open_quantity.1 (9/20) 500 (1/20) (by norm_num) (by norm_num) (by norm_num)

/-- C8: the reduction split conserves the position
(`sell + keep = position_quantity`) and sells at least one contract whenever
the position and the percent are each at least 1, because the ceiling of a
product of values at least 1 is at least 1. -/
theorem c8_reduction_invariants (pos_qty percent : ℚ) :
    ((calc_position_reduction pos_qty percent).1 : ℚ) +
      (calc_position_reduction pos_qty percent).2 = pos_qty ∧
    (1 ≤ pos_qty → 1 ≤ percent → 1 ≤ (calc_position_reduction pos_qty percent).1) := by
  constructor
  · simp only [calc_position_reduction]
    ring
  · intro h1 h2
    have hx : (1:ℚ) ≤ pos_qty * percent := by nlinarith
    have hc : (1:ℚ) ≤ (⌈pos_qty * percent⌉ : ℚ) :=
      le_trans hx (Int.le_ceil _)
    simp only [calc_position_reduction]
    exact_mod_cast hc

/-- Witness for C8 at `pos_qty = 3`, `percent = 50`. -/
theorem c8_reduction_invariants_witness :
    ((calc_position_reduction 3 50).1 : ℚ) + (calc_position_reduction 3 50).2 = 3 ∧
    1 ≤ (calc_position_reduction 3 50).1 :=
  ⟨(c8_reduction_invariants 3 50).1,
    (c8_reduction_invariants 3 50).2 (by norm_num) (by norm_num)⟩

/-- C9: when the stop-loss flag string reaches the engine but fails to parse
as a number, the `float()` call raises and the whole derivation returns the
error (the `ValueError` realizing the class of data-integrity failures) —
no plan is computed and nothing swallows the error. -/
theorem c9_unparseable_sl_raises (ord : BtoIntent) (usr : UserSettings)
    (s : String) (hsl : ord.sl_flag = some s) (hfail : pyFloat s = none)
    (hqty : 1 ≤ calc_buy_order_quantity ord.contract_price
      (bto_order_value ord usr) usr.buy_limit_percent) :
    process_bto_plan ord usr = .error .valueError := by
  simp only [process_bto_plan]
  rw [if_pos hqty]
  simp only [hsl, select_sl_percent, hfail]

/-- Witness for C9: an unparseable stop-loss string on an otherwise viable
order makes the engine return the error. -/
theorem c9_unparseable_sl_raises_witness :
    process_bto_plan ⟨9/20, some "abc", none⟩ ⟨500, 250, 1/20, 3/10⟩ =
      .error .valueError :=
  c9_unparseable_sl_raises ⟨9/20, some "abc", none⟩ ⟨500, 250, 1/20, 3/10⟩
    "abc" rfl rfl (by simp [calc_buy_order_quantity, pyInt, bto_order_value]; norm_num)

/-- C10: with positive contract price and buy-limit percent the quantity
divisor is nonzero and the quantity is a non-negative integer; the
precondition on the price is not implied by the parser, whose contract-price
grammar accepts the zero price `0.00`, on which the divisor vanishes. -/
theorem c10_divisor_safety :
    (∀ cp blp : ℚ, 0 < cp → 0 < blp → cp * 100 * (1 + blp) ≠ 0) ∧
    (∀ cp ov blp : ℚ, 0 < cp → 0 < blp → 0 ≤ ov →
      0 ≤ calc_buy_order_quantity cp ov blp) ∧
    (text_to_order_params "BTO INTC 50C 12/31 @0.00").map
      (fun p => p.contract_price) = some (some "0.00") ∧
    pyFloat "0.00" = some 0 ∧
    ∀ blp : ℚ, (0 : ℚ) * 100 * (1 + blp) = 0 := by
  refine ⟨?_, ?_, by decide, pyFloat_zero00, fun blp => by ring⟩
  · intro cp blp h1 h2
    have hb : (0:ℚ) < 1 + blp := by linarith
    exact ne_of_gt (mul_pos (mul_pos h1 (by norm_num)) hb)
  · intro cp ov blp h1 h2 h3
    have hb : (0:ℚ) < 1 + blp := by linarith
    have hd : (0:ℚ) < cp * 100 * (1 + blp) :=
      mul_pos (mul_pos h1 (by norm_num)) hb
    have hq : (0:ℚ) ≤ ov / (cp * 100 * (1 + blp)) := div_nonneg h3 hd.le
    simp only [calc_buy_order_quantity, pyInt]
    rw [if_pos hq]
    exact Int.floor_nonneg.mpr hq

/-- Witness for C10 at contract price `0.45`, order value `500`, buy limit
percent `0.05`. -/
theorem c10_divisor_safety_witness :
    (9/20 : ℚ) * 100 * (1 + 1/20) ≠ 0 ∧
    0 ≤ calc_buy_order_quantity (9/20) 500 (1/20) :=
  ⟨c10_divisor_safety.1 (9/20) (1/20) (by norm_num) (by norm_num),
    c10_divisor_safety.2.1 (9/20) 500 (1/20) (by norm_num) (by norm_num)
      (by norm_num)⟩

/-- Lemma: the matching run is never longer than the input. -/
theorem takeWhile_length_le (p : Char → Bool) :
    ∀ l : List Char, (l.takeWhile p).length ≤ l.length := by
  intro l
  induction l with
  | nil => simp
  | cons a t ih =>
    by_cases hp : p a = true
    · rw [List.takeWhile_cons_of_pos hp]
      simp only [List.length_cons]
      omega
    · rw [List.takeWhile_cons_of_neg (by simpa using hp)]
      simp

/-- C7 counterexample: on `"trim 999%"` the reduce parser matches and
returns the token `"999%"`, whose integer value 999 is not in 1..100, so
the claimed 1..100 range is false. -/
theorem c7_reduce_range_counterexample :
    parse_reduce "trim 999%" = some "999%" ∧ reduceValue "999%" = 999 ∧
    ¬ reduceValue "999%" ≤ 100 :=
  ⟨by decide, by decide, by decide⟩

/-- C7 (amended): whenever `parse_reduce` returns a value, the comments
contain, at some position `j` passing the word-boundary lookbehind, a
case-insensitive `closing` or `trim`, then exactly one whitespace character,
then the returned token of 1-3 digits immediately followed by `%` and a
word-boundary lookahead; the integer value of the digits is at most 999
(0..999, not 1..100). -/
theorem c7_parse_reduce_amended (c r : String) (h : parse_reduce c = some r) :
    ∃ (j : ℕ) (w : List Char) (sep : Char) (ds : List Char),
      (w.map Char.toLower = "closing".data.map Char.toLower ∨
        w.map Char.toLower = "trim".data.map Char.toLower) ∧
      isPySpace sep = true ∧
      1 ≤ ds.length ∧ ds.length ≤ 3 ∧ (∀ d ∈ ds, d.isDigit = true) ∧
      r.data = ds ++ ['%'] ∧
      (c.data.drop j).take (w.length + 1 + (ds.length + 1)) =
        w ++ sep :: (ds ++ ['%']) ∧
      wordLB (prevChar c.data j) = true ∧
      notWordLA (c.data.drop (j + (w.length + 1 + (ds.length + 1)))) = [0] ∧
      reduceValue r ≤ 999 := by
  simp only [parse_reduce] at h
  obtain ⟨m, hsearch, hrm⟩ := Option.map_eq_some'.mp h
  have hsearch2 : searchAux reduceComps wordLB c.data 0 (c.data.length + 1) =
      some m := hsearch
  have hmatch := searchAux_eq_some_inv hsearch2
  obtain ⟨hlb, hseq⟩ := matchAt_eq_some_inv hmatch
  rw [show reduceComps = [altC (litStrCI "closing") (litStrCI "trim"),
      repGreedy isPySpace 1 1,
      seqC (repGreedy Char.isDigit 1 3) (seqC (litC '%') notWordLA)] from rfl]
    at hseq
  set s0 := c.data.drop m.start with hs0
  obtain ⟨n0, r1, hn0, hseq1, hch⟩ := seqAll_cons_eq_some hseq
  set s1 := s0.drop n0 with hs1
  obtain ⟨n1, r2, hn1, hseq2, hr1⟩ := seqAll_cons_eq_some hseq1
  set s2 := s1.drop n1 with hs2
  obtain ⟨n2, r3, hn2, hseq3, hr2⟩ := seqAll_cons_eq_some hseq2
  have hr3 : r3 = [] := seqAll_nil_eq_some hseq3
  -- the first component: a case-insensitive closing or trim
  have hw : ((s0.take n0).map Char.toLower = "closing".data.map Char.toLower ∨
      (s0.take n0).map Char.toLower = "trim".data.map Char.toLower) ∧
      (s0.take n0).length = n0 := by
    rcases mem_altC_inv hn0 with hcl | htr
    · obtain ⟨hlen, hmap⟩ := mem_litStrCI_inv hcl
      subst hlen
      refine ⟨Or.inl hmap, ?_⟩
      have hl := congrArg List.length hmap
      simpa using hl
    · obtain ⟨hlen, hmap⟩ := mem_litStrCI_inv htr
      subst hlen
      refine ⟨Or.inr hmap, ?_⟩
      have hl := congrArg List.length hmap
      simpa using hl
  -- the second component: exactly one whitespace character
  obtain ⟨h1lo, h1hi, h1tw⟩ := mem_repGreedy_inv hn1
  have hn1eq : n1 = 1 := le_antisymm h1hi h1lo
  subst hn1eq
  have hs1len : 1 ≤ s1.length := by
    have := takeWhile_length_le isPySpace s1
    simp only [countRun] at h1tw
    omega
  obtain ⟨sep, rest, hs1c⟩ : ∃ sep rest, s1 = sep :: rest := by
    cases hc1 : s1 with
    | nil =>
      rw [hc1] at hs1len
      simp at hs1len
    | cons a t => exact ⟨a, t, rfl⟩
  have hsep : isPySpace sep = true := by
    have := all_of_take_le_takeWhile (p := isPySpace) h1tw sep
    apply this
    rw [hs1c]
    simp
  have htake1 : s1.take 1 = [sep] := by
    rw [hs1c]
    rfl
  -- the third component: one to three digits, a percent sign, a boundary
  obtain ⟨nd, nrest, hnd, hnrest, hn2eq⟩ := mem_seqC_inv hn2
  obtain ⟨np, nl, hnp, hnl, hnresteq⟩ := mem_seqC_inv hnrest
  obtain ⟨hnp1, hpct⟩ := mem_litC_inv hnp
  have hlaeq := notWordLA_eq_of_mem hnl
  have hnl0 : nl = 0 := by
    rw [hlaeq] at hnl
    simpa using hnl
  obtain ⟨hdlo, hdhi, hdtw⟩ := mem_repGreedy_inv hnd
  have hndlen : nd ≤ s2.length := by
    have := takeWhile_length_le Char.isDigit s2
    simp only [countRun] at hdtw
    omega
  have hdsall : ∀ d ∈ s2.take nd, d.isDigit = true := by
    intro d hd
    exact all_of_take_le_takeWhile (p := Char.isDigit) hdtw d hd
  have hdslen : (s2.take nd).length = nd := by
    rw [List.length_take]
    omega
  have hn2v : n2 = nd + 1 := by omega
  have hsplit : s2.take n2 = s2.take nd ++ ['%'] := by
    rw [hn2v, List.take_add, hpct]
  -- the returned token is the third chunk
  have hrdata : r.data = s2.take nd ++ ['%'] := by
    rw [← hrm]
    show m.chunks.getD 2 [] = s2.take nd ++ ['%']
    rw [hch, hr1, hr2, hr3]
    show s2.take n2 = s2.take nd ++ ['%']
    exact hsplit
  refine ⟨m.start, s0.take n0, sep, s2.take nd, hw.1, hsep, ?_, ?_, hdsall,
    hrdata, ?_, ?_, ?_, ?_⟩
  · omega
  · omega
  · -- the matched segment of the comments
    rw [hw.2, hdslen]
    have harith : n0 + 1 + (nd + 1) = n0 + (1 + n2) := by omega
    rw [harith, ← hs0, List.take_add, List.take_add, htake1, ← hs1, ← hs2,
      hsplit]
    simp
  · exact hlb
  · -- the word-boundary lookahead after the percent sign
    have hx : c.data.drop (m.start + ((s0.take n0).length + 1 +
        ((s2.take nd).length + 1))) = (s2.drop nd).drop np := by
      rw [hw.2, hdslen, hs2, hs1, hs0]
      simp only [List.drop_drop]
      congr 1
      omega
    rw [hx]
    exact hlaeq
  · -- the numeric bound
    have hval : reduceValue r = natOfDigits (s2.take nd) := by
      simp only [reduceValue]
      rw [hrdata]
      rw [takeWhile_append_of_all hdsall (by decide)]
    rw [hval]
    exact natOfDigits_le_of_digits hdsall (by omega)

/-- Witness for C7 (amended) on the comments `"trim 50%"`. -/
theorem c7_parse_reduce_amended_witness :
    ∃ (j : ℕ) (w : List Char) (sep : Char) (ds : List Char),
      (w.map Char.toLower = "closing".data.map Char.toLower ∨
        w.map Char.toLower = "trim".data.map Char.toLower) ∧
      isPySpace sep = true ∧
      1 ≤ ds.length ∧ ds.length ≤ 3 ∧ (∀ d ∈ ds, d.isDigit = true) ∧
      ("50%" : String).data = ds ++ ['%'] ∧
      (("trim 50%" : String).data.drop j).take (w.length + 1 + (ds.length + 1)) =
        w ++ sep :: (ds ++ ['%']) ∧
      wordLB (prevChar ("trim 50%" : String).data j) = true ∧
      notWordLA (("trim 50%" : String).data.drop
        (j + (w.length + 1 + (ds.length + 1)))) = [0] ∧
      reduceValue "50%" ≤ 999 :=
  c7_parse_reduce_amended "trim 50%" "50%" (by decide)

end AutoTrader
